import Mathlib

/-!
Shallow embedding of the layout and routing engine of the ugla-erp/gantt
chart library (final-state source: src/index.js), with theorems settling
the frozen claims of its natural-language specification.

Modelling conventions:
* JavaScript numbers used as column indices, row indices and timestamps are
  modelled as Int (all relevant code paths use them integrally).
* JavaScript's stable Array.prototype.toSorted / Array.prototype.sort with a
  consistent three-way comparator is modelled by a stable insertion sort
  (the stable sort of a list with respect to a consistent comparator is
  unique, so the choice of stable algorithm is immaterial).
* JavaScript Map objects are modelled as association lists with
  overwrite-on-set semantics and first-match lookup.
* Luxon DateTime values enter the packing comparator only through
  toMillis equality and ordering, so they are modelled by an Int image.
-/

namespace Gantt

/-- Stable insertion of an element into an already sorted list, for a
JavaScript three-way comparator cmp: the inserted element originally
precedes every element of the list, so it is placed after exactly those
elements that the comparator orders strictly before it (cmp a b > 0 means
a sorts after b). -/
def insertCmp {α : Type} (cmp : α → α → Int) (a : α) : List α → List α
  | [] => [a]
  | b :: l => if 0 < cmp a b then b :: insertCmp cmp a l else a :: b :: l

/-- Model of Array.prototype.toSorted / sort with comparator cmp: stable
insertion sort, inserting elements from the last towards the first. -/
def sortStable {α : Type} (cmp : α → α → Int) : List α → List α
  | [] => []
  | a :: l => insertCmp cmp a (sortStable cmp l)

theorem length_insertCmp {α : Type} (cmp : α → α → Int) (a : α) (l : List α) :
    (insertCmp cmp a l).length = l.length + 1 := by
  induction l with
  | nil => rfl
  | cons b t ih =>
    simp only [insertCmp]
    split <;> simp [ih]

theorem length_sortStable {α : Type} (cmp : α → α → Int) (l : List α) :
    (sortStable cmp l).length = l.length := by
  induction l with
  | nil => rfl
  | cons a t ih => simp [sortStable, length_insertCmp, ih]

theorem mem_insertCmp {α : Type} {cmp : α → α → Int} {a x : α} {l : List α} :
    x ∈ insertCmp cmp a l ↔ x = a ∨ x ∈ l := by
  induction l with
  | nil => simp [insertCmp]
  | cons b t ih =>
    simp only [insertCmp]
    split
    · simp only [List.mem_cons, ih]
      tauto
    · simp only [List.mem_cons]

/-- Identifier of a chart bar: the source accepts both numbers and strings
and keys its maps by the JavaScript String(...) conversion. -/
inductive JsId where
  | num (n : Int)
  | str (s : String)
deriving DecidableEq

/-- Model of the JavaScript String(id) conversion used by
buildBarIDToDataMap and renderConnectingLines (integer numbers convert to
their decimal representation). -/
def jsIdStr : JsId → String
  | .num n => toString n
  | .str s => s

/-- Model of a ChartBar after index resolution (src/bar.js plus the fields
written by the chart): startIDX and endIDX are the resolved integer column
indices, startMillis is the Int image of bar.start.toMillis() (meaningful
in calendar mode only), yIndex is the assigned row. -/
structure ChartBar where
  id : JsId
  startIDX : Int
  endIDX : Int
  startMillis : Int
  yIndex : Int
  connectedTo : List JsId
deriving DecidableEq

/-- Comparator of calculateChartHeight (src/index.js lines 768-801):
ascending startIDX; at equal startIDX index mode returns 0 (stable tie) and
calendar mode orders by start.toMillis() descending, equal millis tying. -/
def cmpPack (indexMode : Bool) (a b : ChartBar) : Int :=
  if a.startIDX = b.startIDX then
    if indexMode then 0
    else if a.startMillis = b.startMillis then 0
    else if a.startMillis > b.startMillis then -1
    else 1
  else if a.startIDX > b.startIDX then 1
  else -1

/-- Model of sorted.forEach((bar, idx) => bar.yIndex = idx) (src/index.js
lines 803-805), generalised over the first index. -/
def assignY (i : Int) : List ChartBar → List ChartBar
  | [] => []
  | b :: l => { b with yIndex := i } :: assignY (i + 1) l

/-- Model of calculateChartHeight (src/index.js lines 766-808): sorts the
bar set with cmpPack, assigns each bar its sorted position as yIndex, and
reports chartHeight = max(sorted.length, 1). Returns the bars in sorted
order together with the reported chartHeight. -/
def calculateChartHeight (indexMode : Bool) (bars : List ChartBar) :
    List ChartBar × Nat :=
  let sorted := sortStable (cmpPack indexMode) bars
  (assignY 0 sorted, max sorted.length 1)

/-- Bars of the chart after calculateChartHeight, in sorted order. -/
def packedBars (indexMode : Bool) (bars : List ChartBar) : List ChartBar :=
  (calculateChartHeight indexMode bars).1

theorem length_assignY (i : Int) (l : List ChartBar) :
    (assignY i l).length = l.length := by
  induction l generalizing i with
  | nil => rfl
  | cons b t ih => simp [assignY, ih]

theorem yIndex_assignY (i : Int) (l : List ChartBar)
    (k : Fin (assignY i l).length) :
    ((assignY i l).get k).yIndex = i + (k : Nat) := by
  induction l generalizing i with
  | nil => exact absurd k.isLt (by simp [assignY])
  | cons b t ih =>
    match k with
    | ⟨0, h0⟩ => simp [assignY]
    | ⟨n + 1, hn⟩ =>
      have hn2 : n < (assignY (i + 1) t).length := by
        simpa [assignY] using hn
      have := ih (i + 1) ⟨n, hn2⟩
      simp only [assignY, List.get_cons_succ]
      rw [this]
      push_cast
      ring

theorem length_packedBars (indexMode : Bool) (bars : List ChartBar) :
    (packedBars indexMode bars).length = bars.length := by
  simp [packedBars, calculateChartHeight, length_assignY, length_sortStable]

theorem yIndex_packedBars (indexMode : Bool) (bars : List ChartBar)
    (k : Fin (packedBars indexMode bars).length) :
    ((packedBars indexMode bars).get k).yIndex = (k : Nat) := by
  show ((assignY 0 (sortStable (cmpPack indexMode) bars)).get k).yIndex
      = (k : Nat)
  simpa using yIndex_assignY 0 (sortStable (cmpPack indexMode) bars) k

/-- Index-mode example bar set of the claims, from the shipped example
(bars 3123:[2,4], 3127:[3,3], 3125:[4,5], 3126:[3,5], 3124:[5,5] over the
range [2,10]); startMillis is unused in index mode and set to 0. -/
def exampleIndexBars : List ChartBar :=
  [ { id := .num 3123, startIDX := 2, endIDX := 4, startMillis := 0,
      yIndex := 0, connectedTo := [.num 3125, .num 3124] },
    { id := .num 3127, startIDX := 3, endIDX := 3, startMillis := 0,
      yIndex := 0, connectedTo := [.num 3125, .num 3124] },
    { id := .num 3125, startIDX := 4, endIDX := 5, startMillis := 0,
      yIndex := 0, connectedTo := [] },
    { id := .num 3126, startIDX := 3, endIDX := 5, startMillis := 0,
      yIndex := 0, connectedTo := [] },
    { id := .num 3124, startIDX := 5, endIDX := 5, startMillis := 0,
      yIndex := 0, connectedTo := [.num 3126] } ]

/-- Specification-side definition, written from the claim's words and not
from the source, for comparison with the code: the maximum over all
columns of the number of bars whose interval [startIDX, endIDX] covers
that column, floored at 1.  The maximum over integer columns is attained
at some bar's startIDX, so scanning those suffices. -/
def specMaxSimultaneousOverlap (bars : List ChartBar) : Nat :=
  max 1 ((bars.map (fun b =>
    (bars.filter (fun c => decide (c.startIDX ≤ b.startIDX ∧ b.startIDX ≤ c.endIDX))).length)).foldr
      max 0)

/-- C1 counterexample: on the index-mode example bar set the code reports
chartHeight 5 (the number of bars), while the claim asserts the maximum
simultaneous overlap count (3 for this set) and asserts the value 4. -/
theorem c1_counterexample :
    (calculateChartHeight true exampleIndexBars).2 = 5 ∧
    specMaxSimultaneousOverlap exampleIndexBars = 3 ∧
    (5 : Nat) ≠ 4 ∧ (5 : Nat) ≠ 3 := by
  decide

/-- C1 amended: the row count reported after row assignment (chartHeight)
equals the total number of bars, with a minimum of 1 for the empty bar
set — every bar is stacked on a row of its own; in particular the
index-mode example yields chartHeight 5. -/
theorem c1_amended :
    (∀ (indexMode : Bool) (bars : List ChartBar),
      (calculateChartHeight indexMode bars).2 = max bars.length 1) ∧
    (calculateChartHeight true exampleIndexBars).2 = 5 := by
  constructor
  · intro m bars
    simp [calculateChartHeight, length_sortStable]
  · decide

/-- C2: after row assignment (calculateChartHeight), any two distinct bars
whose column intervals [startIDX, endIDX] overlap are assigned different
yIndex values (in fact all distinct bars receive distinct yIndex values,
each bar getting its position in the sorted order). -/
theorem c2_overlap_distinct_rows (indexMode : Bool) (bars : List ChartBar)
    (i j : Fin (packedBars indexMode bars).length)
    (hij : i ≠ j)
    (hoverlap :
      ((packedBars indexMode bars).get i).startIDX ≤
          ((packedBars indexMode bars).get j).endIDX ∧
        ((packedBars indexMode bars).get j).startIDX ≤
          ((packedBars indexMode bars).get i).endIDX) :
    ((packedBars indexMode bars).get i).yIndex ≠
      ((packedBars indexMode bars).get j).yIndex := by
  rw [yIndex_packedBars, yIndex_packedBars]
  have : (i : Nat) ≠ (j : Nat) := fun h => hij (Fin.ext h)
  exact_mod_cast fun h => this (by exact_mod_cast h)

/-- Witness for C2 at a concrete input: the first and second packed bars of
the index-mode example overlap and receive different rows. -/
theorem c2_witness :
    ((packedBars true exampleIndexBars).get ⟨1, by decide⟩).yIndex ≠
      ((packedBars true exampleIndexBars).get ⟨2, by decide⟩).yIndex :=
  c2_overlap_distinct_rows true exampleIndexBars ⟨1, by decide⟩ ⟨2, by decide⟩
    (by decide) (by decide)

/-- Ordering that the calendar-mode packing comparator realises: startIDX
ascending and, within equal startIDX, start timestamp (toMillis) descending. -/
def calendarPackLe (a b : ChartBar) : Prop :=
  a.startIDX < b.startIDX ∨
    (a.startIDX = b.startIDX ∧ b.startMillis ≤ a.startMillis)

theorem calendarPackLe_trans {a b c : ChartBar}
    (h1 : calendarPackLe a b) (h2 : calendarPackLe b c) :
    calendarPackLe a c := by
  unfold calendarPackLe at h1 h2 ⊢
  omega

theorem cmpPack_pos_le {a b : ChartBar} (h : 0 < cmpPack false a b) :
    calendarPackLe b a := by
  unfold cmpPack at h
  unfold calendarPackLe
  simp only [Bool.false_eq_true, if_false] at h
  split_ifs at h <;> omega

theorem cmpPack_nonpos_le {a b : ChartBar} (h : ¬ 0 < cmpPack false a b) :
    calendarPackLe a b := by
  unfold cmpPack at h
  unfold calendarPackLe
  simp only [Bool.false_eq_true, if_false] at h
  split_ifs at h <;> omega

theorem pairwise_insertCmp_calendar (a : ChartBar) {l : List ChartBar}
    (h : l.Pairwise calendarPackLe) :
    (insertCmp (cmpPack false) a l).Pairwise calendarPackLe := by
  induction l with
  | nil => simp [insertCmp]
  | cons b t ih =>
    rcases List.pairwise_cons.mp h with ⟨hb, ht⟩
    simp only [insertCmp]
    split
    · refine List.pairwise_cons.mpr ⟨?_, ih ht⟩
      intro x hx
      rcases mem_insertCmp.mp hx with rfl | hxt
      · exact cmpPack_pos_le (by assumption)
      · exact hb x hxt
    · refine List.pairwise_cons.mpr ⟨?_, h⟩
      intro x hx
      rcases List.mem_cons.mp hx with rfl | hxt
      · exact cmpPack_nonpos_le (by assumption)
      · exact calendarPackLe_trans (cmpPack_nonpos_le (by assumption)) (hb x hxt)

theorem pairwise_sortStable_calendar (bars : List ChartBar) :
    (sortStable (cmpPack false) bars).Pairwise calendarPackLe := by
  induction bars with
  | nil => simp [sortStable]
  | cons a l ih => exact pairwise_insertCmp_calendar a ih

theorem mem_assignY {x : ChartBar} {i : Int} {l : List ChartBar}
    (hx : x ∈ assignY i l) :
    ∃ y ∈ l, ∃ m : Int, x = { y with yIndex := m } := by
  induction l generalizing i with
  | nil => simp [assignY] at hx
  | cons b t ih =>
    rcases List.mem_cons.mp hx with rfl | hxt
    · exact ⟨b, List.mem_cons_self b t, i, rfl⟩
    · rcases ih hxt with ⟨y, hy, m, hm⟩
      exact ⟨y, List.mem_cons_of_mem b hy, m, hm⟩

theorem calendarPackLe_yIndex {a b : ChartBar} {m n : Int}
    (h : calendarPackLe a b) :
    calendarPackLe { a with yIndex := m } { b with yIndex := n } := h

theorem pairwise_assignY_calendar {l : List ChartBar} (i : Int)
    (h : l.Pairwise calendarPackLe) :
    (assignY i l).Pairwise calendarPackLe := by
  induction l generalizing i with
  | nil => simp [assignY]
  | cons b t ih =>
    rcases List.pairwise_cons.mp h with ⟨hb, ht⟩
    refine List.pairwise_cons.mpr ⟨?_, ih (i + 1) ht⟩
    intro x hx
    rcases mem_assignY hx with ⟨y, hy, m, rfl⟩
    exact calendarPackLe_yIndex (hb y hy)

/-- Calendar-mode example bar set of the claims (axis 2024-03-01..2024-03-31,
one-day step, so 2024-03-06 resolves to column 5, 03-07 to 6, 03-08 to 7):
3123:03-06..03-07, 3124:03-06..03-06, 3125:03-07..03-08, 3126:03-06..03-06.
The start.toMillis() values enter the comparator only through equality and
ordering, so they are represented by day numbers with the same equality and
order pattern (6, 6, 7, 6). -/
def exampleCalendarBars : List ChartBar :=
  [ { id := .num 3123, startIDX := 5, endIDX := 6, startMillis := 6,
      yIndex := 0, connectedTo := [] },
    { id := .num 3124, startIDX := 5, endIDX := 5, startMillis := 6,
      yIndex := 0, connectedTo := [] },
    { id := .num 3125, startIDX := 6, endIDX := 7, startMillis := 7,
      yIndex := 0, connectedTo := [] },
    { id := .num 3126, startIDX := 5, endIDX := 5, startMillis := 6,
      yIndex := 0, connectedTo := [] } ]

/-- C8 counterexample: on the calendar-mode example the code assigns rows
3123 -> 0, 3124 -> 1, 3126 -> 2 and 3125 -> 3 and reports chartHeight 4,
while the claim asserts that 3125 receives row 0 and that the total row
count is 3. -/
theorem c8_counterexample :
    ((calculateChartHeight false exampleCalendarBars).1.map
        (fun b => (b.id, b.yIndex))) =
      [(JsId.num 3123, 0), (JsId.num 3124, 1),
        (JsId.num 3126, 2), (JsId.num 3125, 3)] ∧
    (calculateChartHeight false exampleCalendarBars).2 = 4 ∧
    (4 : Nat) ≠ 3 ∧
    ¬ ∃ b ∈ (calculateChartHeight false exampleCalendarBars).1,
        b.id = JsId.num 3125 ∧ b.yIndex = 0 := by
  refine ⟨by decide, by decide, by decide, by decide⟩

/-- C8 amended: calendar-mode row packing builds no open/close event list;
it orders the bars by startIDX ascending and, at equal startIDX, by start
timestamp descending (equal timestamps keep their original array order, as
the example shows), then assigns each bar its sorted position as its row;
on the example this yields 3123 -> 0, 3124 -> 1, 3126 -> 2, 3125 -> 3 and a
total row count of 4. -/
theorem c8_amended :
    (∀ bars : List ChartBar,
      ((calculateChartHeight false bars).1).Pairwise calendarPackLe) ∧
    ((calculateChartHeight false exampleCalendarBars).1.map
        (fun b => (b.id, b.yIndex))) =
      [(JsId.num 3123, 0), (JsId.num 3124, 1),
        (JsId.num 3126, 2), (JsId.num 3125, 3)] ∧
    (calculateChartHeight false exampleCalendarBars).2 = 4 := by
  refine ⟨fun bars => ?_, by decide, by decide⟩
  exact pairwise_assignY_calendar 0 (pairwise_sortStable_calendar bars)

/-- Comparator used by buildPathfindingGrid (src/index.js lines 697-706):
returns 1 when a.yIndex > b.yIndex and -1 otherwise (it never returns 0,
and after calculateChartHeight all yIndex values are distinct, making it
consistent on every reachable input). -/
def cmpY (a b : ChartBar) : Int :=
  if a.yIndex > b.yIndex then 1 else -1

/-- Model of Array.prototype.fill(v, a, b) on an array of cells that may be
uninitialised (none), as used on the rowArray of buildPathfindingGrid (all
fill bounds there are nonnegative): the cell at position p becomes some v
when a <= p < b.  The parameter i is the position of the first listed cell. -/
def fillCells (v : Nat) (a b i : Int) : List (Option Nat) → List (Option Nat)
  | [] => []
  | c :: l => (if a ≤ i ∧ i < b then some v else c) :: fillCells v a b (i + 1) l

/-- Model of the rowArray built for one bar by buildPathfindingGrid
(src/index.js lines 712-731): a row of 2*columnsNumber+1 cells, created
uninitialised, filled with 0 before the bar, 1 on the doubled span
[2*startIDX+1, 2*endIDX+1], and 0 after it (the first and last fill are
guarded exactly as in the source). -/
def barRow (columnsNumber : Nat) (b : ChartBar) : List (Option Nat) :=
  let gridLastIDX : Int := 2 * columnsNumber + 1
  let len : Int := (b.endIDX - b.startIDX + 1) * 2 - 1
  let first : Int := b.startIDX * 2 + 1
  let last : Int := b.endIDX * 2 + 1
  let row0 : List (Option Nat) := List.replicate (2 * columnsNumber + 1) none
  let row1 := if 0 < first then fillCells 0 0 first 0 row0 else row0
  let row2 := fillCells 1 first (first + len) 0 row1
  let row3 :=
    if last < gridLastIDX then fillCells 0 (last + 1) gridLastIDX 0 row2
    else row2
  row3

/-- Model of buildPathfindingGrid (src/index.js lines 695-739): the bars are
sorted by yIndex, and the matrix is one all-zero corridor row followed by,
for each bar in that order, its rowArray and another corridor row. -/
def buildPathfindingGrid (columnsNumber : Nat) (bars : List ChartBar) :
    List (List (Option Nat)) :=
  let sorted := sortStable cmpY bars
  let emptyRow : List (Option Nat) :=
    List.replicate (2 * columnsNumber + 1) (some 0)
  emptyRow :: sorted.flatMap (fun b => [barRow columnsNumber b, emptyRow])

/-- Cell access into the matrix: row y, column x. -/
def getCell (m : List (List (Option Nat))) (x y : Nat) : Option (Option Nat) :=
  (m.get? y).bind (fun row => row.get? x)

theorem length_fillCells (v : Nat) (a b i : Int) (l : List (Option Nat)) :
    (fillCells v a b i l).length = l.length := by
  induction l generalizing i with
  | nil => rfl
  | cons c t ih => simp [fillCells, ih]

theorem length_barRow (columnsNumber : Nat) (b : ChartBar) :
    (barRow columnsNumber b).length = 2 * columnsNumber + 1 := by
  simp only [barRow]
  split <;> split <;> simp [length_fillCells]

theorem get?_fillCells (v : Nat) (a b i : Int) (l : List (Option Nat))
    (x : Nat) :
    (fillCells v a b i l).get? x =
      (l.get? x).map (fun c => if a ≤ i + x ∧ i + x < b then some v else c) := by
  induction l generalizing i x with
  | nil => simp [fillCells]
  | cons c t ih =>
    match x with
    | 0 => simp [fillCells]
    | n + 1 =>
      simp only [fillCells, List.get?_cons_succ, ih (i + 1) n]
      have : i + 1 + (n : Int) = i + (n + 1 : Nat) := by push_cast; ring
      rw [this]

theorem get?_replicate_of_lt {c : Option Nat} {n x : Nat} (h : x < n) :
    (List.replicate n c).get? x = some c := by
  induction n generalizing x with
  | zero => omega
  | succ m ih =>
    match x with
    | 0 => rfl
    | k + 1 => simpa [List.replicate] using ih (by omega)

theorem barRow_cell (columnsNumber : Nat) (b : ChartBar)
    (hs : 0 ≤ b.startIDX) (hse : b.startIDX ≤ b.endIDX)
    (he : b.endIDX < columnsNumber) (x : Nat) (hx : x < 2 * columnsNumber + 1) :
    (barRow columnsNumber b).get? x =
      some (some (if b.startIDX * 2 + 1 ≤ (x : Int) ∧ (x : Int) ≤ b.endIDX * 2 + 1
        then 1 else 0)) := by
  simp only [barRow]
  rw [if_pos (by omega), if_pos (by omega)]
  rw [get?_fillCells, get?_fillCells, get?_fillCells, get?_replicate_of_lt hx]
  split_ifs <;> first | rfl | omega

theorem length_flatMapPairs (f : ChartBar → List (Option Nat))
    (e : List (Option Nat)) (l : List ChartBar) :
    (l.flatMap (fun b => [f b, e])).length = 2 * l.length := by
  induction l with
  | nil => rfl
  | cons b t ih => simp [List.flatMap_cons, ih]; omega

theorem flatMapPairs_get_even (f : ChartBar → List (Option Nat))
    (e : List (Option Nat)) (l : List ChartBar) (r : Fin l.length) :
    (l.flatMap (fun b => [f b, e])).get? (2 * r) = some (f (l.get r)) := by
  induction l with
  | nil => exact absurd r.isLt (by simp)
  | cons b t ih =>
    match r with
    | ⟨0, h0⟩ => simp [List.flatMap_cons]
    | ⟨n + 1, hn⟩ =>
      have hn2 : n < t.length := by simpa using hn
      have := ih ⟨n, hn2⟩
      simp only [List.flatMap_cons]
      have harith : 2 * (n + 1) = (2 * n) + 1 + 1 := by omega
      simp only [Fin.val_mk] at this ⊢
      rw [harith]
      simpa using this

theorem flatMapPairs_get_odd (f : ChartBar → List (Option Nat))
    (e : List (Option Nat)) (l : List ChartBar) (r : Nat) (hr : r < l.length) :
    (l.flatMap (fun b => [f b, e])).get? (2 * r + 1) = some e := by
  induction l generalizing r with
  | nil => simp at hr
  | cons b t ih =>
    match r with
    | 0 => simp [List.flatMap_cons]
    | n + 1 =>
      have hn2 : n < t.length := by simpa using hr
      have := ih n hn2
      simp only [List.flatMap_cons]
      have harith : 2 * (n + 1) + 1 = (2 * n + 1) + 1 + 1 := by omega
      rw [harith]
      simpa using this

theorem mem_flatMapPairs {row : List (Option Nat)}
    (f : ChartBar → List (Option Nat)) (e : List (Option Nat))
    (l : List ChartBar) (h : row ∈ l.flatMap (fun b => [f b, e])) :
    row = e ∨ ∃ b ∈ l, row = f b := by
  rcases List.mem_flatMap.mp h with ⟨b, hb, hrow⟩
  rcases List.mem_cons.mp hrow with rfl | hrow2
  · exact Or.inr ⟨b, hb, rfl⟩
  · rcases List.mem_cons.mp hrow2 with rfl | h3
    · exact Or.inl rfl
    · simp at h3

theorem sortStable_cmpY_of_pairwise {l : List ChartBar}
    (h : l.Pairwise (fun a b => a.yIndex < b.yIndex)) :
    sortStable cmpY l = l := by
  induction l with
  | nil => rfl
  | cons a t ih =>
    rcases List.pairwise_cons.mp h with ⟨ha, ht⟩
    rw [sortStable, ih ht]
    cases t with
    | nil => rfl
    | cons b u =>
      have hy := ha b (List.mem_cons_self b u)
      have : ¬ 0 < cmpY a b := by
        unfold cmpY
        rw [if_neg (by omega)]
        omega
      simp [insertCmp, this]

theorem pairwise_yIndex_packedBars (indexMode : Bool) (bars : List ChartBar) :
    (packedBars indexMode bars).Pairwise (fun a b => a.yIndex < b.yIndex) := by
  rw [List.pairwise_iff_get]
  intro i j hij
  rw [yIndex_packedBars, yIndex_packedBars]
  exact_mod_cast hij

theorem mem_sortStable {α : Type} {cmp : α → α → Int} {x : α} {l : List α} :
    x ∈ sortStable cmp l ↔ x ∈ l := by
  induction l with
  | nil => simp [sortStable]
  | cons a t ih =>
    simp only [sortStable, mem_insertCmp, ih, List.mem_cons]

theorem span_packedBars (columnsNumber : Nat) (indexMode : Bool)
    (bars : List ChartBar)
    (hspan : ∀ b ∈ bars, 0 ≤ b.startIDX ∧ b.startIDX ≤ b.endIDX ∧
      b.endIDX < columnsNumber) :
    ∀ b ∈ packedBars indexMode bars, 0 ≤ b.startIDX ∧ b.startIDX ≤ b.endIDX ∧
      b.endIDX < columnsNumber := by
  intro b hb
  rcases mem_assignY hb with ⟨y, hy, m, rfl⟩
  exact hspan y (mem_sortStable.mp hy)

/-- C7 counterexample: with one bar on a one-column axis the built matrix
has 3 rows (2 * number of bars + 1), while the claim asserts 2 * rowCount
rows, which is 2 here since calculateChartHeight reports chartHeight 1. -/
theorem c7_counterexample :
    (buildPathfindingGrid 1 (packedBars true
        [{ id := .num 1, startIDX := 0, endIDX := 0, startMillis := 0,
           yIndex := 0, connectedTo := [] }])).length = 3 ∧
    (calculateChartHeight true
        [{ id := .num 1, startIDX := 0, endIDX := 0, startMillis := 0,
           yIndex := 0, connectedTo := [] }]).2 = 1 ∧
    (3 : Nat) ≠ 2 * 1 := by
  refine ⟨by decide, by decide, by decide⟩

/-- C7 amended: the occupancy grid built from a packed bar set is a matrix
of 2*columnsNumber+1 columns and 2*n+1 rows, where n is the number of bars
(one more row than the 2*rowCount of the claim); for every bar with column
span [s, e] assigned row r, matrix row 2r+1 holds 1 exactly at the cells
x = 2s+1 through 2e+1 and 0 elsewhere, and every even-indexed (corridor)
row is all zero. -/
theorem c7_amended (columnsNumber : Nat) (indexMode : Bool)
    (bars : List ChartBar)
    (hspan : ∀ b ∈ bars, 0 ≤ b.startIDX ∧ b.startIDX ≤ b.endIDX ∧
      b.endIDX < columnsNumber) :
    (buildPathfindingGrid columnsNumber (packedBars indexMode bars)).length
        = 2 * bars.length + 1 ∧
    (∀ row ∈ buildPathfindingGrid columnsNumber (packedBars indexMode bars),
      row.length = 2 * columnsNumber + 1) ∧
    (∀ r : Fin (packedBars indexMode bars).length, ∀ x : Nat,
      x < 2 * columnsNumber + 1 →
      getCell (buildPathfindingGrid columnsNumber (packedBars indexMode bars))
          x (2 * r + 1)
        = some (some
            (if ((packedBars indexMode bars).get r).startIDX * 2 + 1 ≤ (x : Int)
                ∧ (x : Int) ≤ ((packedBars indexMode bars).get r).endIDX * 2 + 1
              then 1 else 0))) ∧
    (∀ r : Nat, r ≤ (packedBars indexMode bars).length → ∀ x : Nat,
      x < 2 * columnsNumber + 1 →
      getCell (buildPathfindingGrid columnsNumber (packedBars indexMode bars))
          x (2 * r) = some (some 0)) := by
  have hsort : sortStable cmpY (packedBars indexMode bars)
      = packedBars indexMode bars :=
    sortStable_cmpY_of_pairwise (pairwise_yIndex_packedBars indexMode bars)
  have hM : buildPathfindingGrid columnsNumber (packedBars indexMode bars)
      = List.replicate (2 * columnsNumber + 1) (some 0) ::
        (packedBars indexMode bars).flatMap
          (fun b => [barRow columnsNumber b,
            List.replicate (2 * columnsNumber + 1) (some 0)]) := by
    simp only [buildPathfindingGrid, hsort]
  have hspan2 := span_packedBars columnsNumber indexMode bars hspan
  refine ⟨?_, ?_, ?_, ?_⟩
  · rw [hM]
    simp only [List.length_cons, length_flatMapPairs, length_packedBars]
  · intro row hrow
    rw [hM] at hrow
    rcases List.mem_cons.mp hrow with rfl | hrow2
    · simp
    · rcases mem_flatMapPairs _ _ _ hrow2 with rfl | ⟨b, _, rfl⟩
      · simp
      · exact length_barRow columnsNumber b
  · intro r x hx
    rw [hM]
    unfold getCell
    rw [List.get?_cons_succ, flatMapPairs_get_even]
    have hmem := List.get_mem (packedBars indexMode bars) r.1 r.2
    rcases hspan2 _ hmem with ⟨h1, h2, h3⟩
    simpa using barRow_cell columnsNumber _ h1 h2 h3 x hx
  · intro r hr x hx
    rw [hM]
    unfold getCell
    match r with
    | 0 =>
      simp only [Nat.mul_zero, List.get?_cons_zero, Option.bind]
      simpa using get?_replicate_of_lt hx
    | k + 1 =>
      have hk : k < (packedBars indexMode bars).length := by omega
      have harith : 2 * (k + 1) = (2 * k + 1) + 1 := by omega
      rw [harith, List.get?_cons_succ, flatMapPairs_get_odd _ _ _ k hk]
      simpa using get?_replicate_of_lt hx

/-- Witness for C7 amended at a concrete input: a single bar [0, 0] on a
one-column axis yields a 3-row matrix. -/
theorem c7_amended_witness :
    (buildPathfindingGrid 1 (packedBars true
        [{ id := .num 1, startIDX := 0, endIDX := 0, startMillis := 0,
           yIndex := 0, connectedTo := [] }])).length = 2 * 1 + 1 :=
  (c7_amended 1 true
    [{ id := .num 1, startIDX := 0, endIDX := 0, startMillis := 0,
       yIndex := 0, connectedTo := [] }] (by decide)).1

/-- Model of JavaScript Map.prototype.get on an association list: first
match wins (entries built by this development keep at most one entry per
key, matching Map semantics). -/
def mapGet {K V : Type} [DecidableEq K] : List (K × V) → K → Option V
  | [], _ => none
  | p :: m, k => if p.1 = k then some p.2 else mapGet m k

/-- Model of JavaScript Map.prototype.set: overwrite the existing entry for
the key in place, or append a new entry at the end. -/
def jsMapSet {K V : Type} [DecidableEq K] : List (K × V) → K → V → List (K × V)
  | [], k, v => [(k, v)]
  | p :: m, k, v => if p.1 = k then (k, v) :: m else p :: jsMapSet m k v

theorem mapGet_jsMapSet_self {K V : Type} [DecidableEq K]
    (m : List (K × V)) (k : K) (v : V) :
    mapGet (jsMapSet m k v) k = some v := by
  induction m with
  | nil => simp [jsMapSet, mapGet]
  | cons p t ih =>
    by_cases hp : p.1 = k
    · simp [jsMapSet, hp, mapGet]
    · simp only [jsMapSet, if_neg hp, mapGet]
      exact ih

theorem mapGet_jsMapSet_of_ne {K V : Type} [DecidableEq K]
    (m : List (K × V)) {k1 k : K} (v : V) (hk : k ≠ k1) :
    mapGet (jsMapSet m k1 v) k = mapGet m k := by
  induction m with
  | nil =>
    simp only [jsMapSet, mapGet]
    rw [if_neg (fun h => hk h.symm)]
  | cons p t ih =>
    by_cases hp : p.1 = k1
    · simp only [jsMapSet, if_pos hp, mapGet]
      rw [if_neg (fun h => hk h.symm), if_neg (by rw [hp]; exact fun h => hk h.symm)]
    · simp only [jsMapSet, if_neg hp, mapGet]
      rw [ih]

theorem mapGet_eq_some_mem {K V : Type} [DecidableEq K]
    {m : List (K × V)} {k : K} {w : V} (h : mapGet m k = some w) :
    (k, w) ∈ m := by
  induction m with
  | nil => simp [mapGet] at h
  | cons p t ih =>
    rw [mapGet] at h
    split at h
    · rename_i hp
      injection h with h2
      refine List.mem_cons.mpr (Or.inl ?_)
      rw [Prod.ext_iff]
      exact ⟨hp.symm, h2.symm⟩
    · exact List.mem_cons.mpr (Or.inr (ih h))

/-- Model of the index-mode column loop of buildFormatToColumnMap
(src/index.js lines 663-670): for (let i = start; i <= end; i += interval)
formatToColumnMap.set(i, i).  The generated keys are strictly increasing
when the interval is positive, so the sequence of Map.set calls appends
entries in loop order, which the returned list reproduces.  The loop is
modelled with fuel: a none result means the fuel ran out, which for a
non-positive interval with start <= end models the real non-termination of
the source loop. -/
def indexMapLoop : Nat → Int → Int → Int → Option (List (Int × Int))
  | 0, _, _, _ => none
  | fuel + 1, i, stop, step =>
    if i ≤ stop then
      (indexMapLoop fuel (i + step) stop step).map (fun ps => (i, i) :: ps)
    else some []

/-- Failures of setPeriod in index mode (src/index.js lines 550-593).  The
source validates only that each bound is a nonnegative number; it defines
no InvalidRangeError and no InvalidStepError anywhere, and performs no
comparison between start and end. -/
inductive PeriodFailure where
  | startNotUnsignedInt
  | endNotUnsignedInt
deriving DecidableEq

/-- Model of setPeriod in index mode for numeric bounds (src/index.js lines
550-593): each bound must be a nonnegative integer; nothing else is
checked and the pair is stored as given. -/
def setPeriodIndex (start stop : Int) : Except PeriodFailure (Int × Int) :=
  if 0 ≤ start then
    if 0 ≤ stop then .ok (start, stop)
    else .error .endNotUnsignedInt
  else .error .startNotUnsignedInt

theorem indexMapLoop_entry {fuel : Nat} {i stop step : Int}
    {ps : List (Int × Int)} (hstep : 0 < step)
    (h : indexMapLoop fuel i stop step = some ps) :
    ∀ p ∈ ps, p.2 = p.1 ∧ i ≤ p.1 ∧ p.1 ≤ stop := by
  induction fuel generalizing i ps with
  | zero => simp [indexMapLoop] at h
  | succ n ih =>
    rw [indexMapLoop] at h
    split at h
    · rcases Option.map_eq_some'.mp h with ⟨ps2, hps2, rfl⟩
      intro p hp
      rcases List.mem_cons.mp hp with rfl | hp2
      · exact ⟨rfl, le_refl i, by assumption⟩
      · rcases ih hps2 p hp2 with ⟨h1, h2, h3⟩
        exact ⟨h1, by omega, h3⟩
    · cases h
      simp

theorem indexMapLoop_mapGet_mem {fuel : Nat} {i stop step v : Int}
    {ps : List (Int × Int)} (hstep : 0 < step)
    (h : indexMapLoop fuel i stop step = some ps)
    (hl : i ≤ v) (hr : v ≤ stop) (hd : step ∣ (v - i)) :
    mapGet ps v = some v := by
  induction fuel generalizing i ps with
  | zero => simp [indexMapLoop] at h
  | succ n ih =>
    rw [indexMapLoop] at h
    rw [if_pos (by omega)] at h
    rcases Option.map_eq_some'.mp h with ⟨ps2, hps2, rfl⟩
    by_cases hv : v = i
    · subst hv
      simp [mapGet]
    · have hvi : 0 < v - i := by omega
      have hsle : step ≤ v - i := Int.le_of_dvd hvi hd
      have hne : ¬ ((i, i) : Int × Int).1 = v := by simp; omega
      rw [mapGet, if_neg hne]
      refine ih hps2 (by omega) ?_
      have heq : v - (i + step) = (v - i) - step := by ring
      rw [heq]
      exact dvd_sub hd dvd_rfl

theorem indexMapLoop_mapGet_outside {fuel : Nat} {i stop step v : Int}
    {ps : List (Int × Int)} (hstep : 0 < step)
    (h : indexMapLoop fuel i stop step = some ps)
    (hout : v < i ∨ stop < v) :
    mapGet ps v = none := by
  cases hg : mapGet ps v with
  | none => rfl
  | some w =>
    rcases indexMapLoop_entry hstep h (v, w) (mapGet_eq_some_mem hg)
      with ⟨_, h2, h3⟩
    simp at h2 h3
    omega

theorem indexMapLoop_reversed {fuel : Nat} {start stop step : Int}
    (hfuel : 1 ≤ fuel) (h : stop < start) :
    indexMapLoop fuel start stop step = some [] := by
  match fuel with
  | 0 => omega
  | n + 1 =>
    rw [indexMapLoop, if_neg (by omega)]

theorem indexMapLoop_nonpos_step {start stop step : Int}
    (hstep : step ≤ 0) (h : start ≤ stop) :
    ∀ fuel : Nat, indexMapLoop fuel start stop step = none := by
  intro fuel
  induction fuel generalizing start with
  | zero => rfl
  | succ n ih =>
    rw [indexMapLoop, if_pos h, @ih (start + step) (by omega)]
    rfl

/-- Model of the calendar-mode branch of buildFormatToColumnMap
(src/index.js lines 672-675): the Calendar collaborator (luxon splitBy of
the configured interval, followed by toFormat of each split start) yields
the ordered list of column keys; the source then sets each key to its
zero-based position idx.  The key list is abstract here because splitBy
and toFormat are external collaborator code. -/
def calMapGo (i : Nat) (m : List (String × Nat)) :
    List String → List (String × Nat)
  | [] => m
  | k :: ks => calMapGo (i + 1) (jsMapSet m k i) ks

/-- Calendar-mode format-to-column map built from the ordered column keys. -/
def buildCalendarMap (keys : List String) : List (String × Nat) :=
  calMapGo 0 [] keys

theorem mapGet_calMapGo_absent {k : String} (i : Nat)
    (m : List (String × Nat)) (ks : List String) (hk : k ∉ ks) :
    mapGet (calMapGo i m ks) k = mapGet m k := by
  induction ks generalizing i m with
  | nil => rfl
  | cons k2 t ih =>
    have hne : k ≠ k2 := fun h => hk (h ▸ List.mem_cons_self k2 t)
    have hkt : k ∉ t := fun h => hk (List.mem_cons_of_mem k2 h)
    rw [calMapGo, ih (i + 1) _ hkt, mapGet_jsMapSet_of_ne m i hne]

theorem mapGet_calMapGo_pos {ks : List String} (hnd : ks.Nodup) (i : Nat)
    (m : List (String × Nat)) (hm : ∀ k ∈ ks, mapGet m k = none)
    (j : Fin ks.length) :
    mapGet (calMapGo i m ks) (ks.get j) = some (i + (j : Nat)) := by
  induction ks generalizing i m with
  | nil => exact absurd j.isLt (by simp)
  | cons k2 t ih =>
    rcases List.nodup_cons.mp hnd with ⟨hk2, hndt⟩
    match j with
    | ⟨0, h0⟩ =>
      rw [calMapGo]
      show mapGet (calMapGo (i + 1) (jsMapSet m k2 i) t) k2 = some (i + 0)
      rw [mapGet_calMapGo_absent (i + 1) _ t hk2, mapGet_jsMapSet_self]
      simp
    | ⟨n + 1, hn⟩ =>
      have hn2 : n < t.length := by simpa using hn
      rw [calMapGo]
      have hm2 : ∀ k ∈ t, mapGet (jsMapSet m k2 i) k = none := by
        intro k hk
        have hne : k ≠ k2 := fun h => hk2 (h ▸ hk)
        rw [mapGet_jsMapSet_of_ne m i hne]
        exact hm k (List.mem_cons_of_mem k2 hk)
      have := ih hndt (i + 1) (jsMapSet m k2 i) hm2 ⟨n, hn2⟩
      simp only [List.get_cons_succ]
      rw [this]
      simp only [Fin.val_mk]
      congr 1
      omega

/-- C5 counterexample: in index mode over the configured range [2, 10] with
step 1, looking up the value 2 in the key-to-column map yields 2 (the raw
value), not 0 (its zero-based position in the generated column sequence
2, 3, ..., 10), because the source stores formatToColumnMap.set(i, i). -/
theorem c5_counterexample :
    (indexMapLoop 20 2 10 1).map (fun ps => mapGet ps 2) = some (some 2) ∧
    some (some (2 : Int)) ≠ some (some (0 : Int)) := by
  refine ⟨by decide, by decide⟩

/-- C5 amended: in index mode the key-to-column map sends every on-grid
value v of [start, end] to v itself (the raw index, not the zero-based
position) and every value outside [start, end] to undefined; in calendar
mode (whose column keys come from the Calendar collaborator and are
abstract here) each generated key maps to its zero-based position when the
keys are distinct, and absent keys map to undefined. -/
theorem c5_amended :
    (∀ (fuel : Nat) (start stop step v : Int) (ps : List (Int × Int)),
      0 < step → indexMapLoop fuel start stop step = some ps →
      ((start ≤ v ∧ v ≤ stop ∧ step ∣ (v - start)) → mapGet ps v = some v) ∧
      ((v < start ∨ stop < v) → mapGet ps v = none)) ∧
    (∀ keys : List String, keys.Nodup →
      (∀ j : Fin keys.length,
        mapGet (buildCalendarMap keys) (keys.get j) = some (j : Nat)) ∧
      (∀ k, k ∉ keys → mapGet (buildCalendarMap keys) k = none)) := by
  constructor
  · intro fuel start stop step v ps hstep hloop
    constructor
    · intro ⟨h1, h2, h3⟩
      exact indexMapLoop_mapGet_mem hstep hloop h1 h2 h3
    · intro hout
      exact indexMapLoop_mapGet_outside hstep hloop hout
  · intro keys hnd
    constructor
    · intro j
      have := mapGet_calMapGo_pos hnd 0 [] (fun k _ => rfl) j
      simpa [buildCalendarMap] using this
    · intro k hk
      rw [buildCalendarMap, mapGet_calMapGo_absent 0 [] keys hk]
      rfl

/-- Witness for C5 amended at concrete inputs: in the index-mode map for
[2, 10] step 1 the on-grid value 5 looks up to 5 and the off-range value 11
to undefined, and in a calendar map on keys a, b the key b looks up to 1. -/
theorem c5_amended_witness :
    (mapGet [((2 : Int), (2 : Int)), (3, 3), (4, 4), (5, 5), (6, 6), (7, 7),
        (8, 8), (9, 9), (10, 10)] 5 = some 5 ∧
      mapGet [((2 : Int), (2 : Int)), (3, 3), (4, 4), (5, 5), (6, 6), (7, 7),
        (8, 8), (9, 9), (10, 10)] 11 = none) ∧
    mapGet (buildCalendarMap [String.mk [Char.ofNat 97],
        String.mk [Char.ofNat 98]])
      ([String.mk [Char.ofNat 97], String.mk [Char.ofNat 98]].get
        ⟨1, by decide⟩) = some 1 := by
  constructor
  · have := (c5_amended.1 20 2 10 1 5
      [((2 : Int), (2 : Int)), (3, 3), (4, 4), (5, 5), (6, 6), (7, 7),
        (8, 8), (9, 9), (10, 10)] (by decide) (by decide))
    have h2 := (c5_amended.1 20 2 10 1 11
      [((2 : Int), (2 : Int)), (3, 3), (4, 4), (5, 5), (6, 6), (7, 7),
        (8, 8), (9, 9), (10, 10)] (by decide) (by decide))
    exact ⟨this.1 (by decide), h2.2 (by decide)⟩
  · exact (c5_amended.2 [String.mk [Char.ofNat 97],
      String.mk [Char.ofNat 98]] (by decide)).1 ⟨1, by decide⟩

/-- C6 counterexample: construction with end (2) preceding start (10)
succeeds: setPeriod accepts the pair (it only checks that each bound is a
nonnegative integer), and the column loop terminates at once with an empty
map; no error of any kind is raised, and no InvalidRangeError or
InvalidStepError exists anywhere in the source. -/
theorem c6_counterexample :
    setPeriodIndex 10 2 = Except.ok (10, 2) ∧
    indexMapLoop 20 10 2 1 = some [] := by
  refine ⟨by rfl, by decide⟩

/-- C6 amended: building the axis for a period where end precedes start
raises no error: setPeriod accepts any nonnegative bounds and the
index-mode column loop immediately yields an empty axis; a step that
resolves to zero or negative raises no error either: with start <= end the
column loop never terminates (none for every amount of fuel). -/
theorem c6_amended (start stop step : Int) :
    (0 ≤ start → 0 ≤ stop →
      setPeriodIndex start stop = Except.ok (start, stop)) ∧
    (stop < start → ∀ fuel : Nat, 1 ≤ fuel →
      indexMapLoop fuel start stop step = some []) ∧
    (step ≤ 0 → start ≤ stop → ∀ fuel : Nat,
      indexMapLoop fuel start stop step = none) := by
  refine ⟨?_, ?_, ?_⟩
  · intro h1 h2
    rw [setPeriodIndex, if_pos h1, if_pos h2]
  · intro h fuel hfuel
    exact indexMapLoop_reversed hfuel h
  · intro h1 h2 fuel
    exact indexMapLoop_nonpos_step h1 h2 fuel

/-- Witness for C6 amended at concrete inputs: the reversed range (10, 2)
is accepted and yields the empty axis, and the zero step over [2, 10] never
terminates within fuel 50. -/
theorem c6_amended_witness :
    (setPeriodIndex 10 2 = Except.ok (10, 2) ∧
      indexMapLoop 7 10 2 1 = some []) ∧
    indexMapLoop 50 2 10 0 = none := by
  refine ⟨⟨(c6_amended 10 2 1).1 (by decide) (by decide),
    (c6_amended 10 2 1).2.1 (by decide) 7 (by decide)⟩,
    (c6_amended 2 10 0).2.2 (by decide) (by decide) 50⟩

/-- Exit direction tag of a routing candidate (the dir field of the
candidate array of drawLineBetween, which later orients the arrowhead). -/
inductive ExitDir where
  | left
  | top
deriving DecidableEq

/-- A routing candidate: its exit direction tag and the path the
pathfinder returned for its anchor pair. -/
structure PathCand where
  dir : ExitDir
  path : List (Int × Int)
deriving DecidableEq

/-- Anchor points of a bar, from getBarCoordinates (src/index.js lines
1048-1091) with the final doubling to pathfinding-grid scale applied: all
five doubled anchors are integral, the halves cancelling (center.x doubles
to 2*startIDX + length with length = endIDX - startIDX + 1, center.y to
2*yIndex + 1). -/
structure Anchors where
  center : Int × Int
  top : Int × Int
  right : Int × Int
  bottom : Int × Int
  left : Int × Int
deriving DecidableEq

/-- Doubled-scale anchor coordinates of a bar. -/
def getBarCoordinatesGrid (b : ChartBar) : Anchors :=
  { center := (2 * b.startIDX + (b.endIDX - b.startIDX + 1), 2 * b.yIndex + 1)
    top := (2 * b.startIDX + (b.endIDX - b.startIDX + 1), 2 * b.yIndex)
    right := (2 * (b.endIDX + 1), 2 * b.yIndex + 1)
    bottom := (2 * b.startIDX + (b.endIDX - b.startIDX + 1), 2 * b.yIndex + 2)
    left := (2 * b.startIDX, 2 * b.yIndex + 1) }

/-- Comparator applied to the candidate array (src/index.js lines 940-953):
three-way comparison of path lengths. -/
def cmpLen (a b : PathCand) : Int :=
  if a.path.length = b.path.length then 0
  else if a.path.length > b.path.length then 1
  else -1

/-- Model of the candidate construction of drawLineBetween (src/index.js
lines 928-938): exactly four anchor pairs, in declaration order
right-to-left, right-to-top, bottom-to-left, bottom-to-top, each searched
on its own clone of the occupancy grid — the cloning makes the four
searches independent, which the embedding reflects by applying the pure
pathfinder function four times. -/
def routeCandidates (findPath : (Int × Int) → (Int × Int) → List (Int × Int))
    (f t : Anchors) : List PathCand :=
  [ { dir := .left, path := findPath f.right t.left },
    { dir := .top, path := findPath f.right t.top },
    { dir := .left, path := findPath f.bottom t.left },
    { dir := .top, path := findPath f.bottom t.top } ]

/-- Model of the filter-sort-select of drawLineBetween (src/index.js lines
933-955): candidates with empty paths are discarded, the remainder is
sorted stably by path length, and the head is taken (none models the
undefined paths[0] of the source when nothing is left). -/
def selectPath (cands : List PathCand) : Option PathCand :=
  (sortStable cmpLen (cands.filter (fun c => 0 < c.path.length))).head?

/-- First candidate of minimal path length among c followed by the listed
candidates, earlier candidates winning ties. -/
def firstMin1 (c : PathCand) : List PathCand → PathCand
  | [] => c
  | d :: l =>
    if c.path.length ≤ (firstMin1 d l).path.length then c else firstMin1 d l

/-- Specification-side selection, written from the claim's words: the
first candidate in declaration order among those of minimal path length. -/
def firstMinLen : List PathCand → Option PathCand
  | [] => none
  | c :: l => some (firstMin1 c l)

theorem head?_sortStable_cmpLen (l : List PathCand) :
    (sortStable cmpLen l).head? = firstMinLen l := by
  induction l with
  | nil => rfl
  | cons a t ih =>
    rw [sortStable]
    cases t with
    | nil => rfl
    | cons e r =>
      cases hs : sortStable cmpLen (e :: r) with
      | nil =>
        have := length_sortStable cmpLen (e :: r)
        rw [hs] at this
        simp at this
      | cons b u =>
        have hb : firstMin1 e r = b := by
          have h2 := ih
          rw [hs] at h2
          rw [firstMinLen] at h2
          simp only [List.head?] at h2
          injection h2 with h3
          exact h3.symm
        have hgoal : firstMin1 a (e :: r)
            = if a.path.length ≤ b.path.length then a else b := by
          rw [firstMin1, hb]
        rw [firstMinLen, hgoal]
        by_cases hc : 0 < cmpLen a b
        · have hlen : ¬ a.path.length ≤ b.path.length := by
            unfold cmpLen at hc
            split_ifs at hc <;> omega
          rw [insertCmp, if_pos hc, if_neg hlen]
          rfl
        · have hlen : a.path.length ≤ b.path.length := by
            unfold cmpLen at hc
            split_ifs at hc <;> omega
          rw [insertCmp, if_neg hc, if_pos hlen]
          rfl

theorem firstMin1_spec (c : PathCand) (l : List PathCand) :
    (firstMin1 c l = c ∨ firstMin1 c l ∈ l) ∧
    (firstMin1 c l).path.length ≤ c.path.length ∧
    ∀ d ∈ l, (firstMin1 c l).path.length ≤ d.path.length := by
  induction l generalizing c with
  | nil => simp [firstMin1]
  | cons d t ih =>
    rcases ih d with ⟨hmem, hle, hmin⟩
    rw [firstMin1]
    by_cases hc : c.path.length ≤ (firstMin1 d t).path.length
    · rw [if_pos hc]
      refine ⟨Or.inl rfl, le_refl _, ?_⟩
      intro x hx
      rcases List.mem_cons.mp hx with rfl | hxt
      · exact le_trans hc hle
      · exact le_trans hc (hmin x hxt)
    · rw [if_neg hc]
      refine ⟨?_, by omega, ?_⟩
      · rcases hmem with h1 | h2
        · refine Or.inr ?_
          rw [h1]
          exact List.mem_cons_self d t
        · exact Or.inr (List.mem_cons_of_mem d h2)
      · intro x hx
        rcases List.mem_cons.mp hx with rfl | hxt
        · exact hle
        · exact hmin x hxt

theorem firstMinLen_spec {l : List PathCand} {c : PathCand}
    (h : firstMinLen l = some c) :
    c ∈ l ∧ ∀ d ∈ l, c.path.length ≤ d.path.length := by
  cases l with
  | nil => cases h
  | cons a t =>
    rw [firstMinLen] at h
    injection h with h2
    subst h2
    rcases firstMin1_spec a t with ⟨hmem, hle, hmin⟩
    refine ⟨?_, ?_⟩
    · rcases hmem with h1 | h2
      · rw [h1]
        exact List.mem_cons_self a t
      · exact List.mem_cons_of_mem a h2
    · intro d hd
      rcases List.mem_cons.mp hd with rfl | hdt
      · exact hle
      · exact hmin d hdt

/-- C3: routing between two bars builds exactly the four candidate anchor
pairs (right-to-left, right-to-top, bottom-to-left, bottom-to-top), each
searched independently; candidates with an empty path are discarded, and
the selected candidate is the first in declaration order among those with
the fewest path steps (right-to-left first on ties). -/
theorem c3_candidate_selection
    (findPath : (Int × Int) → (Int × Int) → List (Int × Int))
    (f t : Anchors) :
    selectPath (routeCandidates findPath f t) =
      firstMinLen ((routeCandidates findPath f t).filter
        (fun c => 0 < c.path.length)) ∧
    ∀ c, firstMinLen ((routeCandidates findPath f t).filter
        (fun c => 0 < c.path.length)) = some c →
      c ∈ (routeCandidates findPath f t).filter
        (fun c => 0 < c.path.length) ∧
      ∀ d ∈ (routeCandidates findPath f t).filter
        (fun c => 0 < c.path.length), c.path.length ≤ d.path.length := by
  exact ⟨head?_sortStable_cmpLen _, fun c h => firstMinLen_spec h⟩

/-- Witness for C3 at a concrete input: with a pathfinder returning a
one-step path for every anchor pair, the selection equals the
specification-side first-minimum selection. -/
theorem c3_witness :
    selectPath (routeCandidates (fun _ _ => [((0 : Int), (0 : Int))])
      (getBarCoordinatesGrid
        { id := .num 1, startIDX := 0, endIDX := 0, startMillis := 0,
          yIndex := 0, connectedTo := [] })
      (getBarCoordinatesGrid
        { id := .num 2, startIDX := 2, endIDX := 2, startMillis := 0,
          yIndex := 1, connectedTo := [] })) =
    firstMinLen ((routeCandidates (fun _ _ => [((0 : Int), (0 : Int))])
      (getBarCoordinatesGrid
        { id := .num 1, startIDX := 0, endIDX := 0, startMillis := 0,
          yIndex := 0, connectedTo := [] })
      (getBarCoordinatesGrid
        { id := .num 2, startIDX := 2, endIDX := 2, startMillis := 0,
          yIndex := 1, connectedTo := [] })).filter
        (fun c => 0 < c.path.length)) :=
  (c3_candidate_selection (fun _ _ => [((0 : Int), (0 : Int))])
    (getBarCoordinatesGrid
      { id := .num 1, startIDX := 0, endIDX := 0, startMillis := 0,
        yIndex := 0, connectedTo := [] })
    (getBarCoordinatesGrid
      { id := .num 2, startIDX := 2, endIDX := 2, startMillis := 0,
        yIndex := 1, connectedTo := [] })).1

/-- Failure of drawLineBetween.  The source defines no error class for
routing: when every candidate is discarded, paths[0] is undefined and the
following shortest.path access throws a TypeError, rejecting only that
connector's promise (typeErrorUndefined).  The noPathFound constructor is
the structured error the specification names; it is declared here only so
the two outcomes can be told apart — the code never produces it. -/
inductive RouteFailure where
  | noPathFound
  | typeErrorUndefined
deriving DecidableEq

/-- Model of drawLineBetween (src/index.js lines 922-986) up to the choice
of the drawn candidate: the four candidates are built from the two bars'
anchors and the shortest kept; with no candidate left the source crashes
on the undefined paths[0].  The canvas strokes and the fractional
arrowhead offset consume the returned candidate and are rendering plumbing
outside this model. -/
def drawLineBetween
    (findPath : (Int × Int) → (Int × Int) → List (Int × Int))
    (barFrom barTo : ChartBar) : Except RouteFailure PathCand :=
  match selectPath (routeCandidates findPath (getBarCoordinatesGrid barFrom)
      (getBarCoordinatesGrid barTo)) with
  | none => .error .typeErrorUndefined
  | some c => .ok c

/-- Model of buildBarIDToDataMap (src/index.js lines 681-690): fold over
the bar array, appending each bar to the group stored under String(bar.id)
(an absent group reads as the empty array through the nullish access). -/
def buildBarIDToDataMap (data : List ChartBar) :
    List (String × List ChartBar) :=
  data.foldl (fun m b =>
    jsMapSet m (jsIdStr b.id) (((mapGet m (jsIdStr b.id)).getD []) ++ [b])) []

/-- Model of the connector enumeration of renderConnectingLines
(src/index.js lines 903-909): for every bar of the data and every id in
its connectedTo, one connector per bar in the group stored under
String(id); a missing group contributes nothing (optional chain). -/
def connectorPairs (data : List ChartBar) : List (ChartBar × ChartBar) :=
  data.flatMap (fun b => b.connectedTo.flatMap (fun cid =>
    ((mapGet (buildBarIDToDataMap data) (jsIdStr cid)).getD []).map
      (fun t => (b, t))))

/-- Model of the drawing loop of renderConnectingLines: every connector
pair is routed and drawn independently, each with its own outcome; a
rejected connector leaves every other entry untouched because each promise
executor runs to completion as it is constructed. -/
def renderConnectingLines
    (findPath : (Int × Int) → (Int × Int) → List (Int × Int))
    (data : List ChartBar) :
    List (ChartBar × ChartBar × Except RouteFailure PathCand) :=
  (connectorPairs data).map
    (fun p => (p.1, p.2, drawLineBetween findPath p.1 p.2))

theorem buildBarIDToDataMap_fold (data : List ChartBar)
    (m : List (String × List ChartBar)) (k : String) :
    (mapGet (data.foldl (fun m b =>
        jsMapSet m (jsIdStr b.id) (((mapGet m (jsIdStr b.id)).getD [])
          ++ [b])) m) k).getD []
      = (mapGet m k).getD []
        ++ data.filter (fun b => decide (jsIdStr b.id = k)) := by
  induction data generalizing m with
  | nil => simp
  | cons b t ih =>
    rw [List.foldl_cons, ih]
    by_cases hk : jsIdStr b.id = k
    · rw [← hk, mapGet_jsMapSet_self]
      simp only [Option.getD_some]
      rw [List.filter_cons_of_pos (by simp [hk])]
      simp
    · rw [mapGet_jsMapSet_of_ne _ _ (fun h => hk h.symm)]
      rw [List.filter_cons_of_neg (by simp [hk])]

/-- C10: bar ids need not be unique — the id-to-bar map groups, in array
order, every bar whose String(id) matches the key (so numeric 3125 and the
string form of 3125 share a group), and the connector enumeration routes
one connector from the source bar to every bar carrying a referenced id. -/
theorem c10_id_grouping (data : List ChartBar) :
    (∀ k : String, (mapGet (buildBarIDToDataMap data) k).getD []
        = data.filter (fun b => decide (jsIdStr b.id = k))) ∧
    connectorPairs data = data.flatMap (fun b => b.connectedTo.flatMap
      (fun cid =>
        (data.filter (fun t => decide (jsIdStr t.id = jsIdStr cid))).map
          (fun t => (b, t)))) ∧
    jsIdStr (JsId.num 3125) = jsIdStr (JsId.str "3125") := by
  have hgroup : ∀ k : String, (mapGet (buildBarIDToDataMap data) k).getD []
      = data.filter (fun b => decide (jsIdStr b.id = k)) := by
    intro k
    have := buildBarIDToDataMap_fold data [] k
    simpa [buildBarIDToDataMap] using this
  refine ⟨hgroup, ?_, by decide⟩
  unfold connectorPairs
  congr 1
  funext b
  congr 1
  funext cid
  rw [hgroup (jsIdStr cid)]

/-- C4 counterexample: with a pathfinder that finds no route for any of
the four anchor pairs, drawLineBetween fails with the modelled TypeError
(undefined paths[0] dereference), not with a structured NoPathFoundError —
no such error class exists in the source. -/
theorem c4_counterexample :
    drawLineBetween (fun _ _ => [])
      { id := .num 1, startIDX := 0, endIDX := 0, startMillis := 0,
        yIndex := 0, connectedTo := [.num 2] }
      { id := .num 2, startIDX := 2, endIDX := 2, startMillis := 0,
        yIndex := 1, connectedTo := [] }
      = Except.error RouteFailure.typeErrorUndefined ∧
    (Except.error RouteFailure.typeErrorUndefined
        : Except RouteFailure PathCand)
      ≠ Except.error RouteFailure.noPathFound := by
  constructor
  · rfl
  · intro h
    injection h with h2
    cases h2

/-- C4 amended: when none of the four candidate anchor pairs admits a
path, drawLineBetween fails with a TypeError from dereferencing the
undefined paths[0] (there is no NoPathFoundError in the source); the
failure is confined to that connector: every connector pair's entry in the
render output is computed from that pair alone, so connectors between
other bar pairs are still drawn. -/
theorem c4_amended
    (findPath : (Int × Int) → (Int × Int) → List (Int × Int))
    (data : List ChartBar) :
    (∀ barFrom barTo : ChartBar,
      (∀ c ∈ routeCandidates findPath (getBarCoordinatesGrid barFrom)
        (getBarCoordinatesGrid barTo), c.path = []) →
      drawLineBetween findPath barFrom barTo
        = Except.error RouteFailure.typeErrorUndefined) ∧
    (∀ e ∈ renderConnectingLines findPath data,
      e.2.2 = drawLineBetween findPath e.1 e.2.1) ∧
    (∀ p ∈ connectorPairs data,
      (p.1, p.2, drawLineBetween findPath p.1 p.2)
        ∈ renderConnectingLines findPath data) := by
  refine ⟨?_, ?_, ?_⟩
  · intro barFrom barTo hempty
    have hfilter : (routeCandidates findPath (getBarCoordinatesGrid barFrom)
        (getBarCoordinatesGrid barTo)).filter
          (fun c => 0 < c.path.length) = [] := by
      rw [List.filter_eq_nil]
      intro c hc
      simp [hempty c hc]
    rw [drawLineBetween, selectPath, hfilter]
    rfl
  · intro e he
    rcases List.mem_map.mp he with ⟨p, _, rfl⟩
    rfl
  · intro p hp
    exact List.mem_map.mpr ⟨p, hp, rfl⟩

/-- Witness for C4 amended at a concrete input: the all-blocked pathfinder
makes the connector between the two example bars fail with the modelled
TypeError. -/
theorem c4_amended_witness :
    drawLineBetween (fun _ _ => [])
      { id := .num 7, startIDX := 1, endIDX := 1, startMillis := 0,
        yIndex := 0, connectedTo := [.num 8] }
      { id := .num 8, startIDX := 3, endIDX := 3, startMillis := 0,
        yIndex := 1, connectedTo := [] }
      = Except.error RouteFailure.typeErrorUndefined :=
  (c4_amended (fun _ _ => []) []).1
    { id := .num 7, startIDX := 1, endIDX := 1, startMillis := 0,
      yIndex := 0, connectedTo := [.num 8] }
    { id := .num 8, startIDX := 3, endIDX := 3, startMillis := 0,
      yIndex := 1, connectedTo := [] }
    (by decide)

/-- Snapshot of the four position fields captured in the from object of
the pointermove handler (src/index.js lines 1491-1496). -/
structure MoveSnap where
  startIDX : Int
  endIDX : Int
  calStart : Option Int
  calEnd : Option Int
deriving DecidableEq

/-- State of a bar as touched by the drag handler: the resolved column
indices, the optional calendar bounds (absent in index mode; present ones
modelled by the Int image of their instant), and the row, which the
handler never changes. -/
structure DragBar where
  startIDX : Int
  endIDX : Int
  calStart : Option Int
  calEnd : Option Int
  yIndex : Int
deriving DecidableEq

/-- Pre-change snapshot taken by the pointermove handler. -/
def snapOf (b : DragBar) : MoveSnap :=
  { startIDX := b.startIDX, endIDX := b.endIDX,
    calStart := b.calStart, calEnd := b.calEnd }

/-- Model of the in-place mutation of the pointermove handler when the
clamped candidate column xIndex differs from the bar's startIDX
(src/index.js lines 1486-1509): endIDX moves by the same column delta,
startIDX becomes xIndex, and each calendar bound present advances by the
mode interval scaled by the delta — advance abstracts DateTime.plus of
multipliedInterval(delta) on the instant's Int image. -/
def applyMove (advance : Int → Int → Int) (b : DragBar) (x : Int) :
    DragBar :=
  { b with
    endIDX := x + (b.endIDX - b.startIDX),
    startIDX := x,
    calStart := b.calStart.map (fun s => advance s (x - b.startIDX)),
    calEnd := b.calEnd.map (fun s => advance s (x - b.startIDX)) }

/-- Model of one pointermove update: when the candidate column equals the
current startIDX nothing happens and no move notification is emitted;
otherwise the bar is mutated in place and the notification carries the
pre-change snapshot together with the post-change state. -/
def pointermoveStep (advance : Int → Int → Int) (b : DragBar) (x : Int) :
    Option (DragBar × MoveSnap) :=
  if x = b.startIDX then none
  else some (applyMove advance b x, snapOf b)

/-- Model of the revert capability carried by the move notification
(src/index.js lines 1511-1517): write the four snapshotted fields back
onto the bar, leaving every other field as it stands. -/
def revertApply (b : DragBar) (s : MoveSnap) : DragBar :=
  { b with
    startIDX := s.startIDX,
    endIDX := s.endIDX,
    calStart := s.calStart,
    calEnd := s.calEnd }

/-- C9: after a drag starts on a bar and a single update moves it to a new
valid column, applying the revert capability of the emitted move
notification to the post-change bar restores startIDX, endIDX and both
calendar bounds exactly to their pre-change values (and the row was never
touched), for every advance function — the exact DateTime arithmetic is
irrelevant because revert writes back the snapshot. -/
theorem c9_revert_roundtrip (advance : Int → Int → Int)
    (columnsNumber : Int) (b : DragBar) (x : Int)
    (hnew : x ≠ b.startIDX)
    (hvalid : 0 ≤ x ∧ x + (b.endIDX - b.startIDX) ≤ columnsNumber - 1)
    (moved : DragBar) (s : MoveSnap)
    (h : pointermoveStep advance b x = some (moved, s)) :
    revertApply moved s = b := by
  rw [pointermoveStep, if_neg hnew, Option.some.injEq, Prod.mk.injEq] at h
  obtain ⟨rfl, rfl⟩ := h.symm.imp Eq.symm Eq.symm
  cases b
  simp [revertApply, applyMove, snapOf]

/-- Concrete drag witness input: a bar [1, 2] with calendar bounds on
row 4. -/
def c9exampleBar : DragBar :=
  { startIDX := 1
    endIDX := 2
    calStart := some 100
    calEnd := some 200
    yIndex := 4 }

/-- Witness for C9 at a concrete input: the example bar dragged to column
3 under a day-scaled advance reverts to its original state. -/
theorem c9_witness :
    revertApply
      (applyMove (fun s d => s + d * 86400000) c9exampleBar 3)
      (snapOf c9exampleBar)
      = c9exampleBar :=
  c9_revert_roundtrip (fun s d => s + d * 86400000) 10 c9exampleBar 3
    (by decide) (by decide) _ _ rfl

end Gantt
